import Mathlib

/-!
Verification development for the EBinstore ornament builder (`src/app.js`).

The file shallowly embeds the four core components described in the spec —
the font table parser, the glyph layout engine, the drawing sanitizer and
the export normalizer — directly from the JavaScript source, and proves or
refutes the frozen claims about them.

Modelling conventions, stated once:
* JS numbers are modelled as `ℚ` (exact rationals); every claim proved here
  is about the idealized real-number semantics, which is the reading the
  spec itself uses ("within floating-point tolerance" means the exact-value
  statement holds).  Division follows the source literally; the single
  place where `ℚ` division and JS division can disagree (`x / 0`: `0` in
  Lean, `Infinity` in JS) is excluded from any theorem that inspects
  geometry via an explicit `unitsPerEm ≠ 0` hypothesis; success/failure of
  the code path does not depend on it (JS division never throws).
* DOM attribute reads `getAttribute(a) || fallback` are modelled as
  `Option` values: `none` for an absent or empty (hence JS-falsy)
  attribute string, `some v` for a present non-empty attribute whose
  numeric value is `v`.  A present attribute string `"0"` is truthy in JS
  and parses to `0`, hence `some 0`.
* Glyph outline path data (`d` attributes) is modelled as the list of
  points of the outline, which is exactly the data the bounding-box
  measurement (`getBBox`) consumes; `getBBox` of an empty group returns
  the all-zero rectangle, as in browsers.
-/

namespace EBApp

/-- Point in canvas (or font design) space. -/
abbrev Pt : Type := ℚ × ℚ

/-- Axis-aligned bounding box in the `getBBox` format: origin plus size. -/
structure BBox where
  x : ℚ
  y : ℚ
  w : ℚ
  h : ℚ
  deriving DecidableEq, Repr

/-- Tight bounding box of a list of points; the empty list yields the
all-zero box, matching `getBBox()` on an empty SVG group. -/
def bboxOf : List Pt → BBox
  | [] => ⟨0, 0, 0, 0⟩
  | q :: qs =>
    let xlo := qs.foldl (fun a r => min a r.1) q.1
    let xhi := qs.foldl (fun a r => max a r.1) q.1
    let ylo := qs.foldl (fun a r => min a r.2) q.2
    let yhi := qs.foldl (fun a r => max a r.2) q.2
    ⟨xlo, ylo, xhi - xlo, yhi - ylo⟩

/-! ## Font table parser (`buildPreview`, `src/app.js` lines 215–232) -/

/-- Attributes of the `<font>` element used by the parser: its
`horiz-adv-x` attribute (the font-wide default advance). -/
structure FontElAttrs where
  advAttr : Option ℚ
  deriving DecidableEq, Repr

/-- Attributes of the `<font-face>` element used by the parser. -/
structure FontFaceAttrs where
  unitsPerEmAttr : Option ℚ
  ascentAttr : Option ℚ
  descentAttr : Option ℚ
  deriving DecidableEq, Repr

/-- One `<glyph>` element as scanned by the parser: its `unicode`
attribute (the spec's data model fixes keys to single code points, so it
is a `Char`), its outline `d` attribute, and its own `horiz-adv-x`. -/
structure GlyphEntry where
  unicode : Option Char
  d : Option (List Pt)
  adv : Option ℚ
  deriving DecidableEq, Repr

/-- A parsed glyph table entry: `{d, adv}` in the source. -/
structure Glyph where
  d : List Pt
  adv : ℚ
  deriving DecidableEq, Repr

/-- Parsed font metrics (lines 222–224):
`Number(fontFace?.getAttribute(a) || fallback)` with fallbacks
1024 / 800 / 0. -/
structure FontMetrics where
  unitsPerEm : ℚ
  ascent : ℚ
  descent : ℚ
  deriving DecidableEq, Repr

/-- A font document as seen after DOM parsing: the optional `<font>`
element, the optional `<font-face>` element, and all `<glyph>` elements
in document order. -/
structure FontDoc where
  fontEl : Option FontElAttrs
  fontFace : Option FontFaceAttrs
  glyphEntries : List GlyphEntry
  deriving DecidableEq, Repr

/-- Metric extraction, lines 222–224 of `src/app.js`. -/
def parseMetrics (ff : Option FontFaceAttrs) : FontMetrics :=
  { unitsPerEm := ((ff.bind FontFaceAttrs.unitsPerEmAttr).getD 1024)
    ascent := ((ff.bind FontFaceAttrs.ascentAttr).getD 800)
    descent := ((ff.bind FontFaceAttrs.descentAttr).getD 0) }

/-- Glyph table construction, lines 226–232: every `<glyph>` with both a
`unicode` and a `d` attribute contributes `{d, adv}` where
`adv = Number(g.getAttribute('horiz-adv-x') || fontEl.getAttribute('horiz-adv-x') || 0)`;
entries lacking either attribute are skipped. -/
def buildGlyphTable (fontAdv : Option ℚ) (entries : List GlyphEntry) :
    List (Char × Glyph) :=
  entries.filterMap fun e =>
    match e.unicode, e.d with
    | some u, some d => some (u, ⟨d, ((e.adv.orElse fun _ => fontAdv).getD 0)⟩)
    | _, _ => none

/-- Lookup in the glyph table.  The source stores entries in a plain JS
object (`glyphs[u] = {d, adv}`), so a later entry with the same key
overwrites an earlier one: lookup returns the last matching entry. -/
def tableGet (t : List (Char × Glyph)) (c : Char) : Option Glyph :=
  (t.reverse.find? fun p => p.1 == c).map Prod.snd

/-- The only error the font branch itself throws
(`throw new Error('No <font> element found')`, line 220); the spec calls
it `ParseError`. -/
inductive RenderErr where
  | noFontElement
  deriving DecidableEq, Repr

/-- Font table parser contract: fail iff the `<font>` element is absent,
otherwise produce metrics and the glyph table (lines 218–232). -/
def parseFont (doc : FontDoc) :
    Except RenderErr (FontMetrics × List (Char × Glyph)) :=
  match doc.fontEl with
  | none => .error .noFontElement
  | some fe => .ok (parseMetrics doc.fontFace, buildGlyphTable fe.advAttr doc.glyphEntries)

/-! ## Layout engine (`buildPreview`, lines 236–311) -/

/-- Glyph lookup with lowercase fallback, line 244:
`glyphs[ch] || glyphs[ch.toLowerCase()] || null`. -/
def lookupGlyph (t : List (Char × Glyph)) (c : Char) : Option Glyph :=
  (tableGet t c).orElse fun _ => tableGet t c.toLower

/-- Effective advance used by the cursor update, line 271:
`(gly.adv || 600)` — a stored advance of `0` (JS-falsy) is replaced by the
hardcoded default 600. -/
def effectiveAdv (g : Glyph) : ℚ :=
  if g.adv = 0 then 600 else g.adv

/-- A glyph placed by the layout walk: the path with transform
`translate(cursor,0) scale(scale scale)` and the glyph's outline. -/
structure PositionedGlyph where
  cursor : ℚ
  outline : List Pt
  deriving DecidableEq, Repr

/-- The layout walk, lines 243–272: one code point at a time, missing
glyphs advance the cursor by `10 + kerning` and emit nothing, present
glyphs are placed at the cursor and advance it by
`effectiveAdv * scale + kerning`. -/
def layoutChars (t : List (Char × Glyph)) (scale kerning : ℚ) :
    List Char → ℚ → List PositionedGlyph
  | [], _ => []
  | c :: rest, cursor =>
    match lookupGlyph t c with
    | none => layoutChars t scale kerning rest (cursor + 10 + kerning)
    | some g =>
        ⟨cursor, g.d⟩ :: layoutChars t scale kerning rest
          (cursor + effectiveAdv g * scale + kerning)

/-- All points of the glyph group in the group's own local coordinate
system — exactly what `gGroup.getBBox()` (line 292) measures: the
children's transforms `translate(cursor,0) scale(s s)` (line 254) apply,
but the group's *own* transform (the flip set on `gGroup` itself at
lines 276–279) does not, because `getBBox` reports the bounding box in
the element's local coordinates.  A design-space point `(x, y)` of a
glyph at `cursor` sits at `(cursor + s*x, s*y)`. -/
def groupLocalPoints (scale : ℚ) (pgs : List PositionedGlyph) : List Pt :=
  pgs.flatMap fun pg =>
    pg.outline.map fun q => (pg.cursor + scale * q.1, scale * q.2)

/-- Result of the text-rendering branch: the positioned glyphs, the
measured bounding box (pre-flip, since `getBBox` excludes the group's own
transform), the final on-canvas point geometry after the full transform
list `translate(dx dy) translate(0 ascent*scale) scale(1 -1)` of line
301, and whether the empty-bbox console warning of lines 304–311
fires. -/
structure TextRender where
  placed : List PositionedGlyph
  bbox : BBox
  finalPoints : List Pt
  warnEmptyBBox : Bool
  deriving DecidableEq, Repr

/-- The whole font branch of `buildPreview` (lines 215–311): parse the
font document, lay out the message, set the group flip, measure the
group's bbox with `getBBox` (which excludes the group's own flip),
compute the centering translation from that measured bbox, prepend it
outermost, and raise the zero-size-bbox warning when the measured width
or height is zero.  A final point is the image of a local point under
`translate(dx dy) translate(0 ascent*scale) scale(1 -1)`:
`(x, y) ↦ (x + dx, ascent*scale - y + dy)`. -/
def renderText (doc : FontDoc) (message : String) (fontSize kerning : ℚ) :
    Except RenderErr TextRender :=
  match parseFont doc with
  | .error e => .error e
  | .ok (m, table) =>
    let scale := fontSize / m.unitsPerEm
    let placed := layoutChars table scale kerning message.toList 0
    let pts := groupLocalPoints scale placed
    let bb := bboxOf pts
    let dx := 270 - (bb.x + bb.w / 2)
    let dy := 60 - (bb.y + bb.h / 2)
    .ok { placed := placed
          bbox := bb
          finalPoints := pts.map fun q => (q.1 + dx, m.ascent * scale - q.2 + dy)
          warnEmptyBBox := decide (bb.w = 0 ∨ bb.h = 0) }

/-- The scene data relevant to the text claims: the optional glyph
subtree.  (The sanitized drawing subtree is modelled separately by
`sanitizeDrawing`; it never interacts with the glyph group.) -/
structure Scene where
  glyphSubtree : Option TextRender
  deriving DecidableEq, Repr

/-- The branch guard `message.trim().length > 0` of line 213: trimming
removes leading and trailing whitespace, so the trimmed length is
positive exactly when some character of the message is not whitespace. -/
def trimNonempty (s : String) : Bool :=
  s.toList.any fun c => !c.isWhitespace

/-- Top of `buildPreview` (line 213): the text branch runs only when a
font is selected and `message.trim().length > 0`; a throw inside the
branch is caught and falls through to the glyph-less fallback scene. -/
def buildPreviewModel (hasFont : Bool) (doc : FontDoc) (message : String)
    (fontSize kerning : ℚ) : Scene :=
  if hasFont && trimNonempty message then
    match renderText doc message fontSize kerning with
    | .ok tr => { glyphSubtree := some tr }
    | .error _ => { glyphSubtree := none }
  else
    { glyphSubtree := none }

/-! ## Drawing sanitizer (`buildPreview`, lines 182–205) -/

/-- A top-level child of the incoming drawing document, as classified by
the sanitizer: metadata, defs and editor namedview elements; rectangles
with their parsed `x`/`y`/`width`/`height` attributes
(`Number(attr || 0)` resp. `Number(attr-with-units-stripped)`); and every
other element, imported verbatim (the payload stands for its full
sub-structure). -/
inductive DrawElem where
  | metadataEl
  | defsEl
  | namedviewEl
  | rectEl (x y w h : ℚ)
  | otherEl (content : ℕ)
  deriving DecidableEq, Repr

/-- The per-child filtering decision of lines 183–205: skip metadata,
defs and namedview; drop a rect when its width and height are within 0.1
of the declared viewport size, or when its position is more than twice
the viewport dimensions from the origin; keep everything else. -/
def keepChild (vbW vbH : ℚ) : DrawElem → Bool
  | .metadataEl => false
  | .defsEl => false
  | .namedviewEl => false
  | .rectEl x y w h =>
    if w ≥ vbW - 1/10 ∧ h ≥ vbH - 1/10 then false
    else if |x| > vbW * 2 ∨ |y| > vbH * 2 then false
    else true
  | .otherEl _ => true

/-- The sanitizer: copy the top-level children, filtering with
`keepChild` (`Array.from(inner.childNodes).forEach` loop). -/
def sanitizeDrawing (vbW vbH : ℚ) (children : List DrawElem) : List DrawElem :=
  children.filter (keepChild vbW vbH)

/-! ## Export normalizer (`downloadSVG`, lines 326–441)

The scene is modelled as the list of elements of the cloned document.
Every normalization pass acts element by element (a sweep of a
`querySelectorAll` result), so the document tree is flattened: each
element records the two ancestor-dependent facts the passes consult,
namely whether it (or an ancestor) carries `data-eggbot-preview` and
whether it is a `path` with an ancestor carrying `data-eggbot-glyphs`.
Both markers are never written by any pass, so these fields are constant
throughout normalization and the flattening is faithful. -/

/-- Element tags distinguished by the normalizer: the seven shape
selectors, plus container/other elements. -/
inductive STag where
  | pathTag
  | circleTag
  | ellipseTag
  | rectTag
  | lineTag
  | polylineTag
  | polygonTag
  | groupTag
  | otherTag
  deriving DecidableEq, Repr

/-- Membership of the `shapeSelectors` list of line 345. -/
def STag.isShape : STag → Bool
  | .pathTag | .circleTag | .ellipseTag | .rectTag
  | .lineTag | .polylineTag | .polygonTag => true
  | _ => false

/-- Classes of paint-attribute strings distinguished by the normalizer's
tests (`=== 'none'` and JS truthiness):  the literal `"none"`, a present
empty string, the literal `"#000000"` the normalizer itself writes, and
any other (non-empty, non-none) paint value, preserved verbatim. -/
inductive PaintV where
  | pnone
  | pempty
  | pblack
  | pother
  deriving DecidableEq, Repr

/-- Paint values inside a `style` attribute: `none` or anything else. -/
inductive SPaint where
  | snone
  | sother
  deriving DecidableEq, Repr

/-- One declaration of a `style` attribute: a `fill`, a `stroke`, or any
other declaration (preserved verbatim; the payload distinguishes
them). -/
inductive StyleDecl where
  | dFill (v : SPaint)
  | dStroke (v : SPaint)
  | dOther (content : ℕ)
  deriving DecidableEq, Repr

/-- Classes of stroke-width attribute strings, by the behaviour of the
regex `^\s*([0-9.]+)\s*(mm)?\s*$` and of JS `Number` on the captured
numeric part:
`absent` — attribute missing or empty (JS-falsy);
`wf v mm` — regex matches and the numeric part parses to `v`
(for example "0.25", "0.25mm");
`nanNum mm` — regex matches but the numeric part has several dots, so
`Number` yields `NaN` (for example "1.2.3");
`complex` — any other non-empty string the regex rejects (for example
"2px", or the "NaNmm" produced by `String(NaN)+'mm'`). -/
inductive SWAttr where
  | absent
  | wf (v : ℚ) (mm : Bool)
  | nanNum (mm : Bool)
  | complex
  deriving DecidableEq, Repr

/-- The `vector-effect` attribute: absent, the `non-scaling-stroke` value
the normalizer writes, or any other value. -/
inductive VEAttr where
  | veAbsent
  | veNonScaling
  | veOther
  deriving DecidableEq, Repr

/-- The `stroke-opacity` attribute: absent, the `'1'` the normalizer
writes, or any other value. -/
inductive SOAttr where
  | soAbsent
  | soOne
  | soOther
  deriving DecidableEq, Repr

/-- An element of the cloned scene as the normalizer sees it. -/
structure SElem where
  tag : STag
  previewMarked : Bool
  previewStroke : Bool
  underGlyphs : Bool
  fill : Option PaintV
  stroke : Option PaintV
  strokeWidth : SWAttr
  strokeOpacity : SOAttr
  vectorEffect : VEAttr
  style : Option (List StyleDecl)
  rectW : Option ℚ
  rectH : Option ℚ
  deriving DecidableEq, Repr

/-- Recognizes a `fill: none` declaration. -/
def isFillNoneDecl : StyleDecl → Bool
  | .dFill .snone => true
  | _ => false

/-- Recognizes a `stroke: none` declaration. -/
def isStrokeNoneDecl : StyleDecl → Bool
  | .dStroke .snone => true
  | _ => false

/-- Recognizes any `fill:` declaration. -/
def isFillDecl : StyleDecl → Bool
  | .dFill _ => true
  | _ => false

/-- Recognizes any `stroke:` declaration. -/
def isStrokeDecl : StyleDecl → Bool
  | .dStroke _ => true
  | _ => false

/-- Test of line 349 on the style string: the regex
`(?:^|;)\s*fill\s*:\s*none(?:;|$)` holds of a well-formed style string
exactly when a `fill: none` declaration is among its declarations. -/
def styleHasFillNone (st : Option (List StyleDecl)) : Bool :=
  (st.getD []).any isFillNoneDecl

/-- Line 350, the `stroke: none` analogue of `styleHasFillNone`. -/
def styleHasStrokeNone (st : Option (List StyleDecl)) : Bool :=
  (st.getD []).any isStrokeNoneDecl

/-- Line 370: the style contains some `fill:` declaration. -/
def styleSpecifiesFill (st : Option (List StyleDecl)) : Bool :=
  (st.getD []).any isFillDecl

/-- Line 371: the style contains some `stroke:` declaration. -/
def styleSpecifiesStroke (st : Option (List StyleDecl)) : Bool :=
  (st.getD []).any isStrokeDecl

/-- Line 353: remove the `fill: none` and `stroke: none` declarations
from the style; if nothing remains, remove the attribute. -/
def stripNoneDecls (st : Option (List StyleDecl)) : Option (List StyleDecl) :=
  let l := (st.getD []).filter fun d => !(isFillNoneDecl d || isStrokeNoneDecl d)
  if l = [] then none else some l

/-- JS truthiness of `el.getAttribute(...)` for a paint attribute: false
for an absent attribute or an empty string, true otherwise (note that the
string "none" is truthy). -/
def paintTruthy : Option PaintV → Bool
  | none => false
  | some .pempty => false
  | some _ => true

/-- Lines 368–369: `el.hasAttribute(a) && el.getAttribute(a) !== 'none'`
(a present empty string counts). -/
def hasPaintAttr : Option PaintV → Bool
  | none => false
  | some .pnone => false
  | some _ => true

/-- Test `el.getAttribute(a) === 'none'` on a paint attribute. -/
def isPNone : Option PaintV → Bool
  | some .pnone => true
  | _ => false

/-- JS falsiness of the stroke-width attribute string. -/
def isAbsentSW : SWAttr → Bool
  | .absent => true
  | _ => false

/-- Tag test for the `'[data-eggbot-glyphs] path'` selector. -/
def isPathTag : STag → Bool
  | .pathTag => true
  | _ => false

/-- Tag test for the `'rect'` selector. -/
def isRectTag : STag → Bool
  | .rectTag => true
  | _ => false

/-- MIN_STROKE_MM = 0.05 (line 382). -/
def minStroke : ℚ := mkRat 1 20

/-- Lines 359 and 377: `if (!el.getAttribute('stroke-width'))
el.setAttribute('stroke-width','0.25mm')` — a falsy stroke-width
attribute is replaced by the default "0.25mm". -/
def absentToDefault (s : SWAttr) : SWAttr :=
  if isAbsentSW s then SWAttr.wf (1/4) true else s

/-- Stroke-width attribute classes the floor pass (lines 383–401) leaves
unchanged. -/
def sflStableSW : SWAttr → Bool
  | .wf v _ => !(decide (v < minStroke))
  | .complex => false
  | _ => true

/-- Stroke-width attribute classes the glyph-path pass (lines 405–425)
leaves unchanged. -/
def gfxStableSW : SWAttr → Bool
  | .wf v true => !(decide (v < minStroke))
  | .nanNum true => true
  | _ => false

/-- The `non-scaling-stroke` test on the `vector-effect` attribute. -/
def isNonScalingVE : VEAttr → Bool
  | .veNonScaling => true
  | _ => false

/-- Guard of the double-none rewrite (line 351). -/
def fillNoneB (e : SElem) : Bool :=
  styleHasFillNone e.style || isPNone e.fill

/-- Guard of the double-none rewrite (line 351), stroke side. -/
def strokeNoneB (e : SElem) : Bool :=
  styleHasStrokeNone e.style || isPNone e.stroke

/-- Elements the glyph-path pass (lines 405–425) leaves unchanged: either
not a glyph-group path at all, or already carrying a truthy stroke, a
pass-stable stroke width and a non-scaling vector effect. -/
def gfxStableE (x : SElem) : Bool :=
  !(isPathTag x.tag && x.underGlyphs) ||
    (paintTruthy x.stroke && gfxStableSW x.strokeWidth && isNonScalingVE x.vectorEffect)

/-- Pass (a), lines 333: remove every element marked (or inside an
element marked) `data-eggbot-preview`. -/
def previewStrip (e : SElem) : Option SElem :=
  if e.previewMarked then none else some e

/-- Pass (a) continued, lines 335–340: strip the preview-only inline
style and the marker from elements marked `data-eggbot-preview-stroke`. -/
def previewStrokeStrip (e : SElem) : SElem :=
  if e.previewStroke then { e with style := none, previewStroke := false } else e

/-- Pass (b), lines 346–362: rewrite shapes with both `fill` and `stroke`
set to none (via attribute or style) to a visible single stroke. -/
def doubleNoneRewrite (e : SElem) : SElem :=
  if e.tag.isShape && fillNoneB e && strokeNoneB e then
    { e with style := stripNoneDecls e.style
             stroke := some PaintV.pblack
             fill := some PaintV.pnone
             strokeWidth := absentToDefault e.strokeWidth }
  else e

/-- Pass (c), lines 364–379: give shapes with no paint specification at
all a visible stroke. -/
def unsetPaintDefault (e : SElem) : SElem :=
  if e.tag.isShape && !hasPaintAttr e.fill && !hasPaintAttr e.stroke
      && !styleSpecifiesFill e.style && !styleSpecifiesStroke e.style then
    { e with stroke := some PaintV.pblack
             fill := some PaintV.pnone
             strokeOpacity := SOAttr.soOne
             strokeWidth := absentToDefault e.strokeWidth }
  else e

/-- Pass (d), lines 381–401: enforce the minimum stroke width on every
shape that has a stroke-width attribute.  A parse to `NaN` fails the
`val < MIN_STROKE_MM` comparison and is left untouched. -/
def strokeFloor (e : SElem) : SElem :=
  if e.tag.isShape then
    match e.strokeWidth with
    | .absent => e
    | .wf v _ =>
        if v < minStroke then
          { e with strokeWidth := SWAttr.wf minStroke true
                   vectorEffect := VEAttr.veNonScaling }
        else e
    | .nanNum _ => e
    | .complex =>
        { e with strokeWidth := SWAttr.wf minStroke true
                 vectorEffect := VEAttr.veNonScaling }
  else e

/-- Stroke-width rewrite of the glyph-path pass, lines 410–423: absent or
regex-rejected widths become the minimum in mm; parsed widths are floored
and given mm units; a NaN parse fails the floor comparison and, when
unitless, is re-serialized as the regex-rejected string "NaNmm"
(`String(NaN)+'mm'`). -/
def gfxMap : SWAttr → SWAttr
  | .absent => SWAttr.wf minStroke true
  | .wf v _ => if v < minStroke then SWAttr.wf minStroke true else SWAttr.wf v true
  | .nanNum mm => if mm then SWAttr.nanNum true else SWAttr.complex
  | .complex => SWAttr.wf minStroke true

/-- Pass (d) continued, lines 405–425: paths inside the glyph group get a
stroke when theirs is falsy, a floored stroke-width rewritten into `mm`
units, and a non-scaling stroke. -/
def glyphFix (e : SElem) : SElem :=
  if isPathTag e.tag && e.underGlyphs then
    { e with stroke := if paintTruthy e.stroke then e.stroke else some PaintV.pblack
             strokeWidth := gfxMap e.strokeWidth
             vectorEffect := VEAttr.veNonScaling }
  else e

/-- Pass (e), lines 427–435: remove every rect whose parsed width and
height reach 95% of the clone's viewBox (a `NaN` dimension, modelled as
`none`, fails the comparison and is kept). -/
def bgRectStrip (vbW vbH : ℚ) (e : SElem) : Option SElem :=
  if isRectTag e.tag then
    match e.rectW, e.rectH with
    | some w, some h =>
        if w ≥ vbW * (19/20) ∧ h ≥ vbH * (19/20) then none else some e
    | _, _ => some e
  else some e

/-- The in-place passes of the normalizer between the preview strip and
the background-rect strip, in source order. -/
def innerPasses (e : SElem) : SElem :=
  glyphFix (strokeFloor (unsetPaintDefault (doubleNoneRewrite (previewStrokeStrip e))))

/-- The whole export normalizer on one element.  Each pass of
`downloadSVG` is a separate sweep over the document, but every pass acts
on each element independently of the others, so sweeping pass-by-pass and
element-by-element agree. -/
def normalizeElem (vbW vbH : ℚ) (e : SElem) : Option SElem :=
  ((previewStrip e).map innerPasses).bind (bgRectStrip vbW vbH)

/-- The export normalizer over the scene. -/
def normalizeScene (vbW vbH : ℚ) (s : List SElem) : List SElem :=
  s.filterMap (normalizeElem vbW vbH)

/-! ## Concrete sample data used by witnesses and counterexamples -/

/-- A one-glyph entry list: glyph 'a', a two-point outline, advance 512. -/
def sampleEntries : List GlyphEntry :=
  [⟨some 'a', some [(0, 0), (100, 200)], some 512⟩]

/-- A well-formed font document with default metrics. -/
def sampleDoc : FontDoc := ⟨some ⟨none⟩, none, sampleEntries⟩

/-- The text render produced by `sampleDoc` for the message "a". -/
def sampleRendered : TextRender :=
  ((renderText sampleDoc "a" 24 0).toOption).getD ⟨[], ⟨0, 0, 0, 0⟩, [], false⟩

/-- A font document whose `<font-face>` declares `units-per-em="-512"`. -/
def negUPEmDoc : FontDoc := ⟨some ⟨none⟩, some ⟨some (-512), none, none⟩, sampleEntries⟩

/-- A font document with a `<font>` element but no glyphs at all. -/
def noGlyphDoc : FontDoc := ⟨some ⟨none⟩, none, []⟩

/-- Success observer for the font-rendering branch: did it produce a
layout rather than throwing? -/
def rendersOk (doc : FontDoc) (msg : String) (fs k : ℚ) : Bool :=
  match renderText doc msg fs k with
  | .ok _ => true
  | .error _ => false

/-- A path inside the glyph group whose stroke-width attribute is the
regex-matching but unparsable string "1.2.3". -/
def badGlyphElem : SElem :=
  { tag := .pathTag
    previewMarked := false
    previewStroke := false
    underGlyphs := true
    fill := some .pother
    stroke := some .pother
    strokeWidth := .nanNum false
    strokeOpacity := .soAbsent
    vectorEffect := .veAbsent
    style := none
    rectW := none
    rectH := none }

/-- The same glyph path but with the well-formed stroke-width "0.25". -/
def goodGlyphElem : SElem :=
  { badGlyphElem with strokeWidth := SWAttr.wf (1/4) false }

/-! ## Helper lemmas -/

/-- Folding a translation-compatible operation over translated values
shifts the fold result by the translation. -/
theorem foldl_shift (op : ℚ → ℚ → ℚ) (hop : ∀ x y c, op (x + c) (y + c) = op x y + c)
    (g : Pt → ℚ) (sh : Pt → Pt) (d : ℚ) (hg : ∀ q, g (sh q) = g q + d) :
    ∀ (l : List Pt) (a : ℚ),
      (l.map sh).foldl (fun b r => op b (g r)) (a + d) =
        l.foldl (fun b r => op b (g r)) a + d := by
  intro l
  induction l with
  | nil => intro a; rfl
  | cons p t ih =>
      intro a
      simp only [List.map_cons, List.foldl_cons, hg, hop]
      exact ih _

/-- Folding an order operation over reflected values reflects the fold of
the dual operation. -/
theorem foldl_reflect (op op2 : ℚ → ℚ → ℚ)
    (hop : ∀ a b c, op (c - a) (c - b) = c - op2 a b)
    (g : Pt → ℚ) (sh : Pt → Pt) (c : ℚ) (hg : ∀ q, g (sh q) = c - g q) :
    ∀ (l : List Pt) (a : ℚ),
      (l.map sh).foldl (fun b r => op b (g r)) (c - a)
        = c - l.foldl (fun b r => op2 b (g r)) a := by
  intro l
  induction l with
  | nil => intro a; rfl
  | cons p t ih =>
      intro a
      simp only [List.map_cons, List.foldl_cons, hg, hop]
      exact ih _

/-- Applying the transform `(x, y) ↦ (x + dx, c - y)` (an x-translation
composed with a vertical reflection) translates the bounding box in x,
reflects it in y, and preserves its size. -/
theorem bboxOf_shift_reflect (dx c : ℚ) (l : List Pt) (hl : l ≠ []) :
    bboxOf (l.map fun q => (q.1 + dx, c - q.2)) =
      ⟨(bboxOf l).x + dx, c - ((bboxOf l).y + (bboxOf l).h),
        (bboxOf l).w, (bboxOf l).h⟩ := by
  cases l with
  | nil => exact absurd rfl hl
  | cons p t =>
      have h1 := foldl_shift min (fun x y c => min_add_add_right x y c)
        (fun q => q.1) (fun q => (q.1 + dx, c - q.2)) dx (fun q => rfl) t p.1
      have h2 := foldl_shift max (fun x y c => max_add_add_right x y c)
        (fun q => q.1) (fun q => (q.1 + dx, c - q.2)) dx (fun q => rfl) t p.1
      have h3 := foldl_reflect min max (fun a b cc => min_sub_sub_left cc a b)
        (fun q => q.2) (fun q => (q.1 + dx, c - q.2)) c (fun q => rfl) t p.2
      have h4 := foldl_reflect max min (fun a b cc => max_sub_sub_left cc a b)
        (fun q => q.2) (fun q => (q.1 + dx, c - q.2)) c (fun q => rfl) t p.2
      simp only [List.map_cons, bboxOf, h1, h2, h3, h4, BBox.mk.injEq]
      refine ⟨trivial, by ring, by ring, by ring⟩

/-- Centering computed from the pre-reflection bounding box, then
composed outside the reflection: the x-center lands exactly on 270, but
the y-center lands at `60 + A - 2*(pre-reflection y-center)` rather than
60. -/
theorem center_shift_reflect (pts : List Pt) (A : ℚ) (hne : pts ≠ []) :
    (bboxOf (pts.map fun q => (q.1 + (270 - ((bboxOf pts).x + (bboxOf pts).w / 2)),
        A - q.2 + (60 - ((bboxOf pts).y + (bboxOf pts).h / 2))))).x
      + (bboxOf (pts.map fun q => (q.1 + (270 - ((bboxOf pts).x + (bboxOf pts).w / 2)),
        A - q.2 + (60 - ((bboxOf pts).y + (bboxOf pts).h / 2))))).w / 2 = 270 ∧
    (bboxOf (pts.map fun q => (q.1 + (270 - ((bboxOf pts).x + (bboxOf pts).w / 2)),
        A - q.2 + (60 - ((bboxOf pts).y + (bboxOf pts).h / 2))))).y
      + (bboxOf (pts.map fun q => (q.1 + (270 - ((bboxOf pts).x + (bboxOf pts).w / 2)),
        A - q.2 + (60 - ((bboxOf pts).y + (bboxOf pts).h / 2))))).h / 2
      = 60 + A - 2 * ((bboxOf pts).y + (bboxOf pts).h / 2) := by
  have hf : (fun q : Pt => (q.1 + (270 - ((bboxOf pts).x + (bboxOf pts).w / 2)),
        A - q.2 + (60 - ((bboxOf pts).y + (bboxOf pts).h / 2))))
      = fun q : Pt => (q.1 + (270 - ((bboxOf pts).x + (bboxOf pts).w / 2)),
        (A + (60 - ((bboxOf pts).y + (bboxOf pts).h / 2))) - q.2) := by
    funext q
    rw [Prod.mk.injEq]
    exact ⟨rfl, by ring⟩
  rw [hf, bboxOf_shift_reflect _ _ pts hne]
  constructor <;> ring

/-- The final on-canvas bounding-box center of the rendered glyph group:
because `getBBox` measures the pre-flip bounding box while the centering
translation is composed outside the flip, the x-center is exactly 270 but
the y-center is `60 + ascent*scale - 2*(pre-flip y-center)`. -/
theorem final_center_formula (doc : FontDoc) (message : String)
    (fontSize kerning : ℚ) (tr : TextRender)
    (hok : renderText doc message fontSize kerning = .ok tr)
    (hupem : (parseMetrics doc.fontFace).unitsPerEm ≠ 0)
    (hne : tr.finalPoints ≠ []) :
    (bboxOf tr.finalPoints).x + (bboxOf tr.finalPoints).w / 2 = 270 ∧
    (bboxOf tr.finalPoints).y + (bboxOf tr.finalPoints).h / 2 =
      60 + (parseMetrics doc.fontFace).ascent
          * (fontSize / (parseMetrics doc.fontFace).unitsPerEm)
        - 2 * (tr.bbox.y + tr.bbox.h / 2) := by
  unfold renderText at hok
  cases hfe : doc.fontEl with
  | none =>
      rw [show parseFont doc = .error .noFontElement from by rw [parseFont, hfe]] at hok
      exact absurd hok (by simp)
  | some fe =>
      rw [show parseFont doc
          = .ok (parseMetrics doc.fontFace, buildGlyphTable fe.advAttr doc.glyphEntries) from by
        rw [parseFont, hfe]] at hok
      simp only [Except.ok.injEq] at hok
      subst hok
      dsimp only at hne ⊢
      refine center_shift_reflect _ _ ?_
      intro hnil
      exact hne (by rw [hnil, List.map_nil])

/-- Mapping the second projection preserves definedness of a lookup
result. -/
theorem isSome_map_snd (o : Option (Char × Glyph)) :
    (o.map Prod.snd).isSome = o.isSome := by cases o <;> rfl

/-- An `Except` whose `toOption` is `some v` is `ok v`. -/
theorem except_ok_of_toOption {α β : Type} (e : Except α β) (v : β)
    (h : e.toOption = some v) : e = .ok v := by
  cases e with
  | ok x => simp only [Except.toOption, Option.some.injEq] at h; rw [h]
  | error x => simp [Except.toOption] at h

/-- When every character of the message misses the glyph table, the
layout walk emits no geometry at any cursor position. -/
theorem layoutChars_all_absent (t : List (Char × Glyph)) (s k : ℚ) :
    ∀ (cs : List Char) (cur : ℚ), (∀ c ∈ cs, lookupGlyph t c = none) →
      layoutChars t s k cs cur = [] := by
  intro cs
  induction cs with
  | nil => intro cur _; rfl
  | cons c rest ih =>
      intro cur h
      have hc : lookupGlyph t c = none := h c (List.mem_cons_self c rest)
      simp only [layoutChars, hc]
      exact ih _ fun c' hc' => h c' (List.mem_cons_of_mem c hc')

/-- Characterization of the sanitizer's rectangle decision. -/
theorem keepChild_rect (vbW vbH x y w h : ℚ) :
    keepChild vbW vbH (DrawElem.rectEl x y w h) = false ↔
      (w ≥ vbW - 1 / 10 ∧ h ≥ vbH - 1 / 10) ∨ |x| > vbW * 2 ∨ |y| > vbH * 2 := by
  simp only [keepChild]
  by_cases hA : w ≥ vbW - 1 / 10 ∧ h ≥ vbH - 1 / 10
  · rw [if_pos hA]
    exact iff_of_true rfl (Or.inl hA)
  · rw [if_neg hA]
    by_cases hB : |x| > vbW * 2 ∨ |y| > vbH * 2
    · rw [if_pos hB]
      exact iff_of_true rfl (Or.inr hB)
    · rw [if_neg hB]
      exact iff_of_false (by simp) fun hr => hr.elim hA hB

/-- The sanitizer on a single child reduces to its `keepChild`
decision. -/
theorem sanitizeDrawing_singleton (vbW vbH : ℚ) (el : DrawElem) :
    sanitizeDrawing vbW vbH [el] =
      if keepChild vbW vbH el = true then [el] else [] := by
  simp [sanitizeDrawing, List.filter_cons]

/-- Nothing matched by an exclusion filter survives it. -/
theorem any_filter_excluded {α : Type} (l : List α) (p q : α → Bool)
    (hpq : ∀ d, p d = true → q d = false) : (l.filter q).any p = false := by
  rw [Bool.eq_false_iff]
  intro hcon
  rw [List.any_eq_true] at hcon
  obtain ⟨x, hx, hpx⟩ := hcon
  rw [List.mem_filter] at hx
  rw [hpq x hpx] at hx
  exact absurd hx.2 (by simp)

/-- After stripping, no `fill: none` declaration remains. -/
theorem styleHasFillNone_strip (st : Option (List StyleDecl)) :
    styleHasFillNone (stripNoneDecls st) = false := by
  rw [stripNoneDecls]
  by_cases hnil : ((st.getD []).filter fun d => !(isFillNoneDecl d || isStrokeNoneDecl d)) = []
  · simp only [hnil, if_pos]
    rfl
  · rw [if_neg hnil, styleHasFillNone, Option.getD_some]
    exact any_filter_excluded _ _ _ fun d hd => by simp [hd]

/-- After stripping, no `stroke: none` declaration remains. -/
theorem styleHasStrokeNone_strip (st : Option (List StyleDecl)) :
    styleHasStrokeNone (stripNoneDecls st) = false := by
  rw [stripNoneDecls]
  by_cases hnil : ((st.getD []).filter fun d => !(isFillNoneDecl d || isStrokeNoneDecl d)) = []
  · simp only [hnil, if_pos]
    rfl
  · rw [if_neg hnil, styleHasStrokeNone, Option.getD_some]
    exact any_filter_excluded _ _ _ fun d hd => by simp [hd]

/-- A style with no `stroke:` declaration has no `stroke: none`. -/
theorem hasStrokeNone_false_of_spec_false (st : Option (List StyleDecl))
    (h : styleSpecifiesStroke st = false) : styleHasStrokeNone st = false := by
  rw [Bool.eq_false_iff]
  intro hcon
  rw [styleHasStrokeNone, List.any_eq_true] at hcon
  obtain ⟨d, hd, hdd⟩ := hcon
  rw [styleSpecifiesStroke, Bool.eq_false_iff] at h
  apply h
  rw [List.any_eq_true]
  refine ⟨d, hd, ?_⟩
  cases d with
  | dStroke v => rfl
  | dFill v => exact absurd hdd (by simp [isStrokeNoneDecl])
  | dOther n => exact absurd hdd (by simp [isStrokeNoneDecl])

/-- A falsy paint attribute is never the string "none". -/
theorem isPNone_false_of_not_truthy (p : Option PaintV)
    (h : paintTruthy p = false) : isPNone p = false := by
  cases p with
  | none => rfl
  | some v => cases v <;> simp_all [paintTruthy, isPNone]

/-- Dropping the right disjunct of a conjoined guard keeps it false. -/
theorem band_bor_false (a b c : Bool) (h : (a && (b || c)) = false) :
    (a && b) = false := by revert h; cases a <;> cases b <;> cases c <;> decide

/-- The default-stroke rewrite produces `nanNum` only from `nanNum`. -/
theorem absentToDefault_eq_nanNum (s : SWAttr) (mm : Bool) :
    absentToDefault s = SWAttr.nanNum mm ↔ s = SWAttr.nanNum mm := by
  cases s <;> simp [absentToDefault, isAbsentSW]

/-- Equation lemma: floor stability on parsed widths. -/
theorem sflStableSW_wf (v : ℚ) (mm : Bool) :
    sflStableSW (SWAttr.wf v mm) = !(decide (v < minStroke)) := rfl

/-- Equation lemma: glyph-pass stability on absent widths. -/
theorem gfxStableSW_absent : gfxStableSW SWAttr.absent = false := rfl

/-- Equation lemma: glyph-pass stability on unitless parsed widths. -/
theorem gfxStableSW_wf_false (v : ℚ) : gfxStableSW (SWAttr.wf v false) = false := rfl

/-- Equation lemma: glyph-pass stability on mm parsed widths. -/
theorem gfxStableSW_wf_true (v : ℚ) :
    gfxStableSW (SWAttr.wf v true) = !(decide (v < minStroke)) := rfl

/-- Equation lemma: glyph-pass stability on mm NaN widths. -/
theorem gfxStableSW_nan_true : gfxStableSW (SWAttr.nanNum true) = true := rfl

/-- Equation lemma: glyph-pass stability on unitless NaN widths. -/
theorem gfxStableSW_nan_false : gfxStableSW (SWAttr.nanNum false) = false := rfl

/-- Equation lemma: glyph-pass stability on regex-rejected widths. -/
theorem gfxStableSW_complex : gfxStableSW SWAttr.complex = false := rfl

/-- The preview-stroke strip fixes elements without the marker. -/
theorem pss_id (x : SElem) (h : x.previewStroke = false) :
    previewStrokeStrip x = x := by
  rw [previewStrokeStrip, if_neg (by simp [h])]

/-- The double-none rewrite fixes elements failing its guard. -/
theorem dnr_id (x : SElem) (h : (x.tag.isShape && fillNoneB x && strokeNoneB x) = false) :
    doubleNoneRewrite x = x := by
  rw [doubleNoneRewrite, if_neg (by simp [h])]

/-- The unset-paint default fixes elements failing its guard. -/
theorem upd_id (x : SElem)
    (h : (x.tag.isShape && !hasPaintAttr x.fill && !hasPaintAttr x.stroke
      && !styleSpecifiesFill x.style && !styleSpecifiesStroke x.style) = false) :
    unsetPaintDefault x = x := by
  rw [unsetPaintDefault, if_neg (by simp [h])]

/-- The stroke floor fixes non-shapes and stable stroke widths. -/
theorem sfl_id (x : SElem)
    (h : x.tag.isShape = false ∨ sflStableSW x.strokeWidth = true) :
    strokeFloor x = x := by
  rw [strokeFloor]
  rcases h with h | h
  · rw [if_neg (by simp [h])]
  · by_cases hsh : x.tag.isShape = true
    · rw [if_pos (by simp [hsh])]
      cases hsw : x.strokeWidth with
      | absent => rfl
      | wf v mm =>
          rw [hsw, sflStableSW_wf] at h
          simp only [Bool.not_eq_true', decide_eq_false_iff_not] at h
          simp only [if_neg h]
      | nanNum mm => rfl
      | complex =>
          rw [hsw] at h
          exact absurd h (by rw [show sflStableSW SWAttr.complex = false from rfl]; simp)
    · rw [if_neg (by simpa using hsh)]

/-- The glyph-path pass fixes elements that are stable for it. -/
theorem gfx_id (x : SElem) (h : gfxStableE x = true) : glyphFix x = x := by
  rw [glyphFix]
  rw [gfxStableE] at h
  by_cases hg : (isPathTag x.tag && x.underGlyphs) = true
  · rw [if_pos (by simp [hg])]
    rw [hg] at h
    simp only [Bool.not_true, Bool.false_or, Bool.and_eq_true] at h
    obtain ⟨⟨htr, hsw⟩, hve⟩ := h
    have hstroke : (if paintTruthy x.stroke = true then x.stroke
        else some PaintV.pblack) = x.stroke := by rw [if_pos htr]
    have hswv : gfxMap x.strokeWidth = x.strokeWidth := by
      cases hx : x.strokeWidth with
      | absent => rw [hx, gfxStableSW_absent] at hsw; exact absurd hsw (by simp)
      | wf v mm =>
          cases mm with
          | false => rw [hx, gfxStableSW_wf_false] at hsw; exact absurd hsw (by simp)
          | true =>
              rw [hx, gfxStableSW_wf_true] at hsw
              simp only [Bool.not_eq_true', decide_eq_false_iff_not] at hsw
              simp [gfxMap, hsw]
      | nanNum mm =>
          cases mm with
          | false => rw [hx, gfxStableSW_nan_false] at hsw; exact absurd hsw (by simp)
          | true => simp [gfxMap]
      | complex => rw [hx, gfxStableSW_complex] at hsw; exact absurd hsw (by simp)
    have hvev : VEAttr.veNonScaling = x.vectorEffect := by
      cases hx : x.vectorEffect <;> rw [hx, isNonScalingVE] at hve <;> simp_all
    cases x
    simp_all
  · rw [if_neg (by simpa using hg)]

/-- An element with the five stability properties is a fixpoint of the
in-place normalizer passes. -/
theorem inner_after (x : SElem)
    (h1 : x.previewStroke = false)
    (h2 : (x.tag.isShape && fillNoneB x && strokeNoneB x) = false)
    (h3 : (x.tag.isShape && !hasPaintAttr x.fill && !hasPaintAttr x.stroke
      && !styleSpecifiesFill x.style && !styleSpecifiesStroke x.style) = false)
    (h4 : x.tag.isShape = false ∨ sflStableSW x.strokeWidth = true)
    (h5 : gfxStableE x = true) :
    innerPasses x = x := by
  rw [innerPasses, pss_id x h1, dnr_id x h2, upd_id x h3, sfl_id x h4, gfx_id x h5]

/-- Only the `path` tag passes the glyph selector. -/
theorem shape_of_path (t : STag) (h : isPathTag t = true) : t.isShape = true := by
  cases t <;> simp_all [isPathTag, STag.isShape]

/-- After the stroke-floor and glyph passes run on an element whose
double-none guard and unset-paint guard are false, every normalizer pass
is dead on the result. -/
theorem tail_stable (tg : STag) (pm ug : Bool) (fl' st' : Option PaintV) (sw : SWAttr)
    (so : SOAttr) (ve : VEAttr) (sty' : Option (List StyleDecl)) (rw0 rh0 : Option ℚ)
    (x : SElem)
    (hx : x = glyphFix (strokeFloor ⟨tg, pm, false, ug, fl', st', sw, so, ve, sty', rw0, rh0⟩))
    (hsw : ¬((isPathTag tg && ug) = true ∧ sw = SWAttr.nanNum false))
    (hdnr2 : (tg.isShape && (styleHasFillNone sty' || isPNone fl')
      && (styleHasStrokeNone sty' || isPNone st')) = false)
    (hupd2 : (tg.isShape && !hasPaintAttr fl' && !hasPaintAttr st'
      && !styleSpecifiesFill sty' && !styleSpecifiesStroke sty') = false) :
    x.previewStroke = false ∧
    (x.tag.isShape && fillNoneB x && strokeNoneB x) = false ∧
    (x.tag.isShape && !hasPaintAttr x.fill && !hasPaintAttr x.stroke
      && !styleSpecifiesFill x.style && !styleSpecifiesStroke x.style) = false ∧
    (x.tag.isShape = false ∨ sflStableSW x.strokeWidth = true) ∧
    gfxStableE x = true := by
  by_cases hsh : tg.isShape = true
  · -- the floor pass runs; characterize its output
    have key : ∃ sw4 ve4,
        strokeFloor ⟨tg, pm, false, ug, fl', st', sw, so, ve, sty', rw0, rh0⟩
          = ⟨tg, pm, false, ug, fl', st', sw4, so, ve4, sty', rw0, rh0⟩ ∧
        sflStableSW sw4 = true ∧
        ((isPathTag tg && ug) = true →
          gfxStableSW (gfxMap sw4) = true ∧ sflStableSW (gfxMap sw4) = true) := by
      cases hswc : sw with
      | absent =>
          refine ⟨SWAttr.absent, ve, ?_, rfl, fun _ => ?_⟩
          · rw [strokeFloor, if_pos (by simpa using hsh)]
          · constructor <;> norm_num [gfxMap, gfxStableSW_wf_true, sflStableSW_wf, minStroke]
      | wf v mm =>
          by_cases hv : v < minStroke
          · refine ⟨SWAttr.wf minStroke true, VEAttr.veNonScaling, ?_, ?_, fun _ => ?_⟩
            · rw [strokeFloor, if_pos (by simpa using hsh)]
              simp only [if_pos hv]
            · norm_num [sflStableSW_wf, minStroke]
            · constructor <;>
                norm_num [gfxMap, gfxStableSW_wf_true, sflStableSW_wf, minStroke]
          · refine ⟨SWAttr.wf v mm, ve, ?_, ?_, fun _ => ?_⟩
            · rw [strokeFloor, if_pos (by simpa using hsh)]
              simp only [if_neg hv]
            · simp [sflStableSW_wf, hv]
            · constructor <;> simp [gfxMap, if_neg hv, gfxStableSW_wf_true, sflStableSW_wf, hv]
      | nanNum mm =>
          refine ⟨SWAttr.nanNum mm, ve, ?_, rfl, fun hg => ?_⟩
          · rw [strokeFloor, if_pos (by simpa using hsh)]
          · cases mm with
            | false => exact absurd ⟨hg, hswc⟩ hsw
            | true => exact ⟨by simp [gfxMap, gfxStableSW_nan_true], by simp [gfxMap, sflStableSW]⟩
      | complex =>
          refine ⟨SWAttr.wf minStroke true, VEAttr.veNonScaling, ?_, ?_, fun _ => ?_⟩
          · rw [strokeFloor, if_pos (by simpa using hsh)]
          · norm_num [sflStableSW_wf, minStroke]
          · constructor <;>
              norm_num [gfxMap, gfxStableSW_wf_true, sflStableSW_wf, minStroke]
    obtain ⟨sw4, ve4, he4, hstb, hglyph⟩ := key
    rw [he4] at hx
    by_cases hg : (isPathTag tg && ug) = true
    · -- glyph branch
      rw [glyphFix, if_pos (by simpa using hg)] at hx
      by_cases htr : paintTruthy st' = true
      · rw [if_pos (by simpa using htr)] at hx
        subst hx
        refine ⟨rfl, ?_, ?_, ?_, ?_⟩
        · simpa [fillNoneB, strokeNoneB] using hdnr2
        · simpa using hupd2
        · exact Or.inr (hglyph hg).2
        · simp [gfxStableE, hg, htr, (hglyph hg).1, isNonScalingVE]
      · rw [if_neg (by simpa using htr)] at hx
        subst hx
        refine ⟨rfl, ?_, ?_, ?_, ?_⟩
        · simp only [fillNoneB, strokeNoneB, isPNone, Bool.or_false]
          apply band_bor_false _ _ (isPNone st')
          simpa [fillNoneB, strokeNoneB] using hdnr2
        · simp [hasPaintAttr]
        · exact Or.inr (hglyph hg).2
        · simp [gfxStableE, hg, paintTruthy, (hglyph hg).1, isNonScalingVE]
    · -- not a glyph path
      rw [glyphFix, if_neg (by simpa using hg)] at hx
      subst hx
      refine ⟨rfl, ?_, ?_, ?_, ?_⟩
      · simpa [fillNoneB, strokeNoneB] using hdnr2
      · simpa using hupd2
      · exact Or.inr hstb
      · simp [gfxStableE, hg]
  · -- not a shape: both passes are dead
    have hpf : isPathTag tg = false := by
      cases hp : isPathTag tg with
      | false => rfl
      | true => exact absurd (shape_of_path tg hp) hsh
    rw [strokeFloor, if_neg (by simpa using hsh)] at hx
    rw [glyphFix, if_neg (by simp [hpf])] at hx
    subst hx
    refine ⟨rfl, ?_, ?_, ?_, ?_⟩
    · simpa [fillNoneB, strokeNoneB] using hdnr2
    · simpa using hupd2
    · exact Or.inl (by simpa using hsh)
    · simp [gfxStableE, hpf]

/-- The in-place passes drive any (unmarked) element into a state on
which every pass is dead, by the three-way case split on which paint
repair fired: the double-none rewrite, the unset-paint default, or
neither. -/
theorem inner_core_stable (tg : STag) (pm ug : Bool) (fl st : Option PaintV) (sw : SWAttr)
    (so : SOAttr) (ve : VEAttr) (sty : Option (List StyleDecl)) (rw0 rh0 : Option ℚ)
    (hbad : ¬((isPathTag tg && ug) = true ∧ sw = SWAttr.nanNum false)) :
    ∀ x, x = innerPasses ⟨tg, pm, false, ug, fl, st, sw, so, ve, sty, rw0, rh0⟩ →
    x.previewStroke = false ∧
    (x.tag.isShape && fillNoneB x && strokeNoneB x) = false ∧
    (x.tag.isShape && !hasPaintAttr x.fill && !hasPaintAttr x.stroke
      && !styleSpecifiesFill x.style && !styleSpecifiesStroke x.style) = false ∧
    (x.tag.isShape = false ∨ sflStableSW x.strokeWidth = true) ∧
    gfxStableE x = true := by
  intro x hx
  rw [innerPasses, pss_id _ rfl] at hx
  by_cases hdnr : ((⟨tg, pm, false, ug, fl, st, sw, so, ve, sty, rw0, rh0⟩ : SElem).tag.isShape
      && fillNoneB ⟨tg, pm, false, ug, fl, st, sw, so, ve, sty, rw0, rh0⟩
      && strokeNoneB ⟨tg, pm, false, ug, fl, st, sw, so, ve, sty, rw0, rh0⟩) = true
  · -- the double-none rewrite fired
    rw [doubleNoneRewrite, if_pos hdnr] at hx
    dsimp only at hx
    rw [upd_id ⟨tg, pm, false, ug, some PaintV.pnone, some PaintV.pblack, absentToDefault sw,
      so, ve, stripNoneDecls sty, rw0, rh0⟩ (by simp [hasPaintAttr])] at hx
    refine tail_stable tg pm ug (some PaintV.pnone) (some PaintV.pblack) (absentToDefault sw)
      so ve (stripNoneDecls sty) rw0 rh0 x hx ?_ ?_ ?_
    · rintro ⟨hg, hna⟩
      exact hbad ⟨hg, (absentToDefault_eq_nanNum sw false).mp hna⟩
    · simp [styleHasStrokeNone_strip, isPNone]
    · simp [hasPaintAttr]
  · by_cases hupd : ((⟨tg, pm, false, ug, fl, st, sw, so, ve, sty, rw0, rh0⟩ : SElem).tag.isShape
        && !hasPaintAttr (⟨tg, pm, false, ug, fl, st, sw, so, ve, sty, rw0, rh0⟩ : SElem).fill
        && !hasPaintAttr (⟨tg, pm, false, ug, fl, st, sw, so, ve, sty, rw0, rh0⟩ : SElem).stroke
        && !styleSpecifiesFill (⟨tg, pm, false, ug, fl, st, sw, so, ve, sty, rw0, rh0⟩ : SElem).style
        && !styleSpecifiesStroke (⟨tg, pm, false, ug, fl, st, sw, so, ve, sty, rw0, rh0⟩ : SElem).style)
        = true
    · -- the unset-paint default fired
      rw [dnr_id _ (by simpa using hdnr)] at hx
      rw [unsetPaintDefault, if_pos hupd] at hx
      dsimp only at hx
      have hss : styleSpecifiesStroke sty = false := by
        have h := hupd
        dsimp only at h
        simp only [Bool.and_eq_true, Bool.not_eq_true'] at h
        exact h.2
      refine tail_stable tg pm ug (some PaintV.pnone) (some PaintV.pblack) (absentToDefault sw)
        SOAttr.soOne ve sty rw0 rh0 x hx ?_ ?_ ?_
      · rintro ⟨hg, hna⟩
        exact hbad ⟨hg, (absentToDefault_eq_nanNum sw false).mp hna⟩
      · simp [isPNone, hasStrokeNone_false_of_spec_false sty hss]
      · simp [hasPaintAttr]
    · -- neither paint repair fired
      rw [dnr_id _ (by simpa using hdnr), upd_id _ (by simpa using hupd)] at hx
      refine tail_stable tg pm ug fl st sw so ve sty rw0 rh0 x hx hbad ?_ ?_
      · simpa [fillNoneB, strokeNoneB] using hdnr
      · simpa using hupd

/-- Idempotence of the in-place passes on any element that is not a
glyph-group path carrying a regex-matching but unparsable unitless
stroke-width. -/
theorem innerPasses_idem (e : SElem)
    (hbad : ¬(e.tag = STag.pathTag ∧ e.underGlyphs = true ∧
      e.strokeWidth = SWAttr.nanNum false)) :
    innerPasses (innerPasses e) = innerPasses e := by
  obtain ⟨tg, pm, ps, ug, fl, st, sw, so, ve, sty, rw0, rh0⟩ := e
  have hbad' : ¬((isPathTag tg && ug) = true ∧ sw = SWAttr.nanNum false) := by
    rintro ⟨hg, hn⟩
    simp only [Bool.and_eq_true] at hg
    apply hbad
    refine ⟨?_, hg.2, hn⟩
    have hp := hg.1
    cases tg <;> simp_all [isPathTag]
  cases ps with
  | false =>
      obtain ⟨h1, h2, h3, h4, h5⟩ :=
        inner_core_stable tg pm ug fl st sw so ve sty rw0 rh0 hbad' _ rfl
      exact inner_after _ h1 h2 h3 h4 h5
  | true =>
      have hred : innerPasses ⟨tg, pm, true, ug, fl, st, sw, so, ve, sty, rw0, rh0⟩
          = innerPasses ⟨tg, pm, false, ug, fl, st, sw, so, ve, none, rw0, rh0⟩ := by
        rw [innerPasses, innerPasses]
        rw [show previewStrokeStrip ⟨tg, pm, true, ug, fl, st, sw, so, ve, sty, rw0, rh0⟩
            = ⟨tg, pm, false, ug, fl, st, sw, so, ve, none, rw0, rh0⟩ from by
          rw [previewStrokeStrip, if_pos rfl]]
        rw [pss_id _ rfl]
      rw [hred]
      obtain ⟨h1, h2, h3, h4, h5⟩ :=
        inner_core_stable tg pm ug fl st sw so ve none rw0 rh0 hbad' _ rfl
      exact inner_after _ h1 h2 h3 h4 h5

/-- No in-place pass touches the preview-removal marker. -/
theorem inner_pm (e : SElem) : (innerPasses e).previewMarked = e.previewMarked := by
  rw [innerPasses]
  have h1 : ∀ x : SElem, (previewStrokeStrip x).previewMarked = x.previewMarked := by
    intro x; rw [previewStrokeStrip]; split <;> rfl
  have h2 : ∀ x : SElem, (doubleNoneRewrite x).previewMarked = x.previewMarked := by
    intro x; rw [doubleNoneRewrite]; split <;> rfl
  have h3 : ∀ x : SElem, (unsetPaintDefault x).previewMarked = x.previewMarked := by
    intro x; rw [unsetPaintDefault]; split <;> rfl
  have h4 : ∀ x : SElem, (strokeFloor x).previewMarked = x.previewMarked := by
    intro x; rw [strokeFloor]
    split
    · split <;> first | rfl | (split <;> rfl)
    · rfl
  have h5 : ∀ x : SElem, (glyphFix x).previewMarked = x.previewMarked := by
    intro x; rw [glyphFix]; split <;> rfl
  rw [h5, h4, h3, h2, h1]

/-- The background-rect strip either keeps an element unchanged or drops
it. -/
theorem bgRect_some (vbW vbH : ℚ) (e b : SElem)
    (h : bgRectStrip vbW vbH e = some b) : b = e := by
  rw [bgRectStrip] at h
  split at h
  · split at h
    · split at h
      · exact absurd h (by simp)
      · exact (Option.some.injEq _ _ ▸ h).symm
    · exact (Option.some.injEq _ _ ▸ h).symm
  · exact (Option.some.injEq _ _ ▸ h).symm

/-- A surviving output of the element normalizer is itself a fixpoint of
the element normalizer, for elements outside the NaN-stroke-width glyph
corner. -/
theorem normalizeElem_fixpoint (vbW vbH : ℚ) (a b : SElem)
    (hbad : ¬(a.tag = STag.pathTag ∧ a.underGlyphs = true ∧
      a.strokeWidth = SWAttr.nanNum false))
    (hab : normalizeElem vbW vbH a = some b) :
    normalizeElem vbW vbH b = some b := by
  rw [normalizeElem] at hab
  by_cases hpm : a.previewMarked = true
  · rw [show previewStrip a = none from by rw [previewStrip, if_pos hpm]] at hab
    exact absurd hab (by simp)
  · rw [show previewStrip a = some a from by rw [previewStrip, if_neg hpm]] at hab
    simp only [Option.map_some', Option.some_bind] at hab
    have hb : b = innerPasses a := bgRect_some vbW vbH _ b hab
    have hidem : innerPasses b = b := by
      rw [hb]; exact innerPasses_idem a hbad
    have hpm2 : b.previewMarked = false := by
      rw [hb, inner_pm]
      simpa using hpm
    rw [normalizeElem,
      show previewStrip b = some b from by rw [previewStrip, if_neg (by simp [hpm2])]]
    simp only [Option.map_some', Option.some_bind]
    rw [hidem]
    nth_rewrite 1 [hb]
    exact hab

/-! ## Claims -/

/-- Claim C2 (corrected), counterexample.  At the file's one-glyph sample
font (outline (0,0)–(100,200), ascent 800, fontSize 24) the centered
group's x-center is 270 but its y-center is 1185/16 = 74.0625, not 60:
`getBBox` measures the bounding box without the group's own flip
transform, so the centering translation is computed from the pre-flip
bbox while being composed outside the flip. -/
theorem layout_center_misses_anchor_cx :
    renderText sampleDoc "a" 24 0 = .ok sampleRendered ∧
    (bboxOf sampleRendered.finalPoints).x + (bboxOf sampleRendered.finalPoints).w / 2 = 270 ∧
    (bboxOf sampleRendered.finalPoints).y + (bboxOf sampleRendered.finalPoints).h / 2
      = 1185 / 16 ∧
    (1185 / 16 : ℚ) ≠ 60 := by
  obtain ⟨hx, hy⟩ :=
    final_center_formula sampleDoc "a" 24 0 sampleRendered rfl (by decide) (by decide)
  refine ⟨rfl, hx, ?_, by norm_num⟩
  rw [hy]
  have hbb : sampleRendered.bbox = ⟨0, 0, 75/32, 75/16⟩ := by
    have h0 : sampleRendered.bbox
        = bboxOf (groupLocalPoints ((24 : ℚ) / 1024) [⟨0, [(0, 0), (100, 200)]⟩]) := rfl
    have h1 : groupLocalPoints ((24 : ℚ) / 1024) [⟨0, [(0, 0), (100, 200)]⟩]
        = [(0, 0), ((24 : ℚ) / 1024 * 100, (24 : ℚ) / 1024 * 200)] := by
      simp [groupLocalPoints]
    have h2 : ((24 : ℚ) / 1024 * 100) = 75 / 32 := by norm_num
    have h3 : ((24 : ℚ) / 1024 * 200) = 75 / 16 := by norm_num
    rw [h0, h1, h2, h3]
    simp only [bboxOf, List.foldl_cons, List.foldl_nil]
    rw [BBox.mk.injEq]
    norm_num [min_def, max_def]
  have ha : (parseMetrics sampleDoc.fontFace).ascent = 800 := rfl
  have hu : (parseMetrics sampleDoc.fontFace).unitsPerEm = 1024 := rfl
  rw [hbb, ha, hu]
  norm_num

/-- Claim C2 (amended).  For every rendering with non-empty glyph
geometry, the x-coordinate of the final bounding-box center is exactly
270, but the y-coordinate is `60 + ascent*scale - 2*preCenterY`, where
`preCenterY` is the y-center of the measured (pre-flip) bounding box —
`getBBox` excludes the group's own flip transform, so the vertical
centering reaches 60 only when the pre-flip center sits at
`ascent*scale/2`. -/
theorem centering_x_exact_y_formula
    (doc : FontDoc) (message : String) (fontSize kerning : ℚ) (tr : TextRender)
    (hok : renderText doc message fontSize kerning = .ok tr)
    (hupem : (parseMetrics doc.fontFace).unitsPerEm ≠ 0)
    (hne : tr.finalPoints ≠ []) :
    (bboxOf tr.finalPoints).x + (bboxOf tr.finalPoints).w / 2 = 270 ∧
    (bboxOf tr.finalPoints).y + (bboxOf tr.finalPoints).h / 2 =
      60 + (parseMetrics doc.fontFace).ascent
          * (fontSize / (parseMetrics doc.fontFace).unitsPerEm)
        - 2 * (tr.bbox.y + tr.bbox.h / 2) :=
  final_center_formula doc message fontSize kerning tr hok hupem hne

/-- Witness for the amended C2 at the concrete sample font. -/
theorem centering_x_exact_y_formula_witness :
    (bboxOf sampleRendered.finalPoints).x + (bboxOf sampleRendered.finalPoints).w / 2 = 270 ∧
    (bboxOf sampleRendered.finalPoints).y + (bboxOf sampleRendered.finalPoints).h / 2 =
      60 + (parseMetrics sampleDoc.fontFace).ascent
          * (24 / (parseMetrics sampleDoc.fontFace).unitsPerEm)
        - 2 * (sampleRendered.bbox.y + sampleRendered.bbox.h / 2) :=
  centering_x_exact_y_formula sampleDoc "a" 24 0 sampleRendered rfl
    (by decide) (by decide)

/-- Claim C1 (corrected), counterexample.  A font declaring
`units-per-em="-512"` parses to a non-positive `unitsPerEm`, yet the
layout branch succeeds (no `LayoutError` exists in the code): it computes
the scale and renders. -/
theorem nonpositive_upem_renders_anyway_cx :
    (parseMetrics negUPEmDoc.fontFace).unitsPerEm = -512 ∧
    (parseMetrics negUPEmDoc.fontFace).unitsPerEm ≤ 0 ∧
    rendersOk negUPEmDoc "a" 24 0 = true := by decide

/-- Claim C1 (amended).  The layout engine performs no validation of
`unitsPerEm`: whenever the `<font>` element is present, rendering
succeeds even when the parsed `unitsPerEm` is non-positive — the scale is
computed by unconditional division. -/
theorem layout_no_upem_validation
    (fe : FontElAttrs) (ff : Option FontFaceAttrs) (entries : List GlyphEntry)
    (msg : String) (fs k : ℚ)
    (hupem : (parseMetrics ff).unitsPerEm ≤ 0) :
    rendersOk ⟨some fe, ff, entries⟩ msg fs k = true := by
  simp [rendersOk, renderText, parseFont]

/-- Witness for the amended C1 at the concrete negative-upem document. -/
theorem layout_no_upem_validation_witness :
    rendersOk negUPEmDoc "a" 24 0 = true :=
  layout_no_upem_validation ⟨none⟩ (some ⟨some (-512), none, none⟩) sampleEntries
    "a" 24 0 (by decide)

/-- Claim C3 (confirmed).  Laying out a two-character message places the
second glyph's horizontal origin exactly
`advanceWidth(A) * (fontSize / unitsPerEm) + kerning` past the first
glyph's origin (which is 0), where `advanceWidth` is the effective
advance the cursor uses (the spec's glossary meaning: the distance, in
design units, the cursor moves). -/
theorem advance_accumulation_two_chars
    (t : List (Char × Glyph)) (a b : Char) (gA gB : Glyph)
    (fontSize unitsPerEm kerning : ℚ)
    (hk : 0 ≤ kerning)
    (hA : tableGet t a = some gA) (hB : tableGet t b = some gB) :
    layoutChars t (fontSize / unitsPerEm) kerning [a, b] 0 =
      [⟨0, gA.d⟩, ⟨effectiveAdv gA * (fontSize / unitsPerEm) + kerning, gB.d⟩] := by
  have la : lookupGlyph t a = some gA := by simp [lookupGlyph, hA, Option.orElse]
  have lb : lookupGlyph t b = some gB := by simp [lookupGlyph, hB, Option.orElse]
  simp [layoutChars, la, lb]

/-- Witness for C3 at a concrete table with glyphs 'a' and 'b'. -/
theorem advance_accumulation_two_chars_witness :
    layoutChars (buildGlyphTable none
        [⟨some 'a', some [(0, 0)], some 512⟩, ⟨some 'b', some [(1, 1)], some 300⟩])
      (24 / 1024) 2 ['a', 'b'] 0 =
      [⟨0, [(0, 0)]⟩, ⟨effectiveAdv ⟨[(0, 0)], 512⟩ * (24 / 1024) + 2, [(1, 1)]⟩] :=
  advance_accumulation_two_chars _ 'a' 'b' ⟨[(0, 0)], 512⟩ ⟨[(1, 1)], 300⟩
    24 1024 2 (by decide) (by decide) (by decide)

/-- Claim C9 (confirmed).  If the table has no entry for a character but
has one for its lowercase form, laying out the character produces exactly
the same outline geometry as laying out the lowercase form, via the
exact-match-then-lowercase fallback. -/
theorem lowercase_fallback_same_outline
    (t : List (Char × Glyph)) (c : Char) (g : Glyph) (scale kerning : ℚ)
    (hup : tableGet t c = none) (hlo : tableGet t c.toLower = some g) :
    layoutChars t scale kerning [c] 0 = layoutChars t scale kerning [c.toLower] 0 ∧
    layoutChars t scale kerning [c] 0 = [⟨0, g.d⟩] := by
  have l1 : lookupGlyph t c = some g := by simp [lookupGlyph, hup, hlo, Option.orElse]
  have l2 : lookupGlyph t c.toLower = some g := by
    simp [lookupGlyph, hlo, Option.orElse]
  constructor <;> simp [layoutChars, l1, l2]

/-- Witness for C9: a table holding only 'a', rendered with input 'A'. -/
theorem lowercase_fallback_same_outline_witness :
    layoutChars (buildGlyphTable none sampleEntries) (24 / 1024) 0 ['A'] 0 =
      layoutChars (buildGlyphTable none sampleEntries) (24 / 1024) 0 ['a'] 0 ∧
    layoutChars (buildGlyphTable none sampleEntries) (24 / 1024) 0 ['A'] 0 =
      [⟨0, [(0, 0), (100, 200)]⟩] :=
  lowercase_fallback_same_outline (buildGlyphTable none sampleEntries) 'A'
    ⟨[(0, 0), (100, 200)], 512⟩ (24 / 1024) 0 (by decide) (by decide)

/-- Claim C10 (confirmed).  A whitespace-only message (empty trim, that
is, no non-whitespace character) skips the text-rendering branch
entirely: the scene carries no glyph subtree, for every font and
parameter choice. -/
theorem whitespace_message_no_glyphs
    (hasFont : Bool) (doc : FontDoc) (msg : String) (fs k : ℚ)
    (hws : trimNonempty msg = false) :
    (buildPreviewModel hasFont doc msg fs k).glyphSubtree = none := by
  simp [buildPreviewModel, hws]

/-- Witness for C10 with a space-and-tab message. -/
theorem whitespace_message_no_glyphs_witness :
    (buildPreviewModel true sampleDoc "  " 24 0).glyphSubtree = none :=
  whitespace_message_no_glyphs true sampleDoc "  " 24 0 (by decide)

/-- Claim C5 (confirmed).  The parser fails with `ParseError` exactly
when the `<font>` element is absent; otherwise a character key is present
in the glyph table exactly when some glyph entry carries both that
unicode mapping and an outline — entries lacking either are silently
absent. -/
theorem parser_skips_invalid_entries (doc : FontDoc) :
    (parseFont doc = .error .noFontElement ↔ doc.fontEl = none) ∧
    ∀ fe, doc.fontEl = some fe → ∀ c : Char,
      ((tableGet (buildGlyphTable fe.advAttr doc.glyphEntries) c).isSome ↔
        ∃ e ∈ doc.glyphEntries, e.unicode = some c ∧ e.d.isSome) := by
  constructor
  · cases h : doc.fontEl <;> simp [parseFont, h]
  · intro fe _ c
    rw [tableGet, isSome_map_snd, List.find?_isSome]
    constructor
    · rintro ⟨⟨u, g⟩, hmem, hbeq⟩
      rw [List.mem_reverse] at hmem
      rw [buildGlyphTable, List.mem_filterMap] at hmem
      obtain ⟨e, he, hfe2⟩ := hmem
      cases hu : e.unicode with
      | none => rw [hu] at hfe2; exact absurd hfe2 (by simp)
      | some u' =>
          cases hd : e.d with
          | none => rw [hu, hd] at hfe2; exact absurd hfe2 (by simp)
          | some dl =>
              rw [hu, hd] at hfe2
              simp only [Option.some.injEq, Prod.mk.injEq] at hfe2
              have huc : u = c := by simpa using hbeq
              exact ⟨e, he, by rw [hu, hfe2.1, huc], by rw [hd]; rfl⟩
    · rintro ⟨e, he, hu, hd⟩
      obtain ⟨dl, hdl⟩ := Option.isSome_iff_exists.mp hd
      refine ⟨(c, ⟨dl, ((e.adv.orElse fun _ => fe.advAttr).getD 0)⟩), ?_, by simp⟩
      rw [List.mem_reverse, buildGlyphTable, List.mem_filterMap]
      exact ⟨e, he, by rw [hu, hdl]⟩

/-- Witness for C5: in a document holding one valid entry for 'a' and
one outline-less entry for 'b', 'a' is present and 'b' is absent. -/
theorem parser_skips_invalid_entries_witness :
    (tableGet (buildGlyphTable none
        (sampleEntries ++ [⟨some 'b', none, some 300⟩])) 'a').isSome = true ∧
    (tableGet (buildGlyphTable none
        (sampleEntries ++ [⟨some 'b', none, some 300⟩])) 'b').isSome = false := by
  constructor
  · exact ((parser_skips_invalid_entries
        ⟨some ⟨none⟩, none, sampleEntries ++ [⟨some 'b', none, some 300⟩]⟩).2
        ⟨none⟩ rfl 'a').mpr ⟨⟨some 'a', some [(0, 0), (100, 200)], some 512⟩,
          by decide, by decide, by decide⟩
  · have h2 := ((parser_skips_invalid_entries
        ⟨some ⟨none⟩, none, sampleEntries ++ [⟨some 'b', none, some 300⟩]⟩).2
        ⟨none⟩ rfl 'b')
    rw [Bool.eq_false_iff]
    intro htrue
    have h3 := h2.mp htrue
    revert h3; decide

/-- Claim C4 (corrected), counterexample.  A message consisting solely of
characters absent from the glyph table does trigger the zero-size-bbox
console warning — the advisory the claim says is reserved for non-empty
geometry; no distinct `emptyLayout` flag exists in the code. -/
theorem absent_chars_raise_bbox_warning_cx :
    (renderText noGlyphDoc "@@" 24 0).toOption.map TextRender.warnEmptyBBox = some true ∧
    (renderText noGlyphDoc "@@" 24 0).toOption.map TextRender.placed = some [] := by
  decide

/-- Claim C4 (amended).  A message all of whose characters miss the glyph
table yields an empty-geometry layout with the all-zero bounding box, and
the code reports it through the same zero-size-bbox warning used for the
render-anomaly advisory (there is no separate `emptyLayout` flag).  The
fully empty or whitespace-only message never even reaches layout (see the
C10 theorem). -/
theorem empty_geometry_uses_bbox_warning
    (doc : FontDoc) (m : FontMetrics) (tbl : List (Char × Glyph))
    (msg : String) (fs k : ℚ) (tr : TextRender)
    (hpf : parseFont doc = .ok (m, tbl))
    (habs : ∀ c ∈ msg.toList, lookupGlyph tbl c = none)
    (hok : renderText doc msg fs k = .ok tr) :
    tr.placed = [] ∧ tr.bbox = ⟨0, 0, 0, 0⟩ ∧ tr.finalPoints = [] ∧
    tr.warnEmptyBBox = true := by
  unfold renderText at hok
  rw [hpf] at hok
  simp only [Except.ok.injEq] at hok
  subst hok
  rw [layoutChars_all_absent tbl (fs / m.unitsPerEm) k msg.toList 0 habs]
  refine ⟨rfl, rfl, rfl, rfl⟩

/-- Witness for the amended C4 at a glyph-less font and message "@@". -/
theorem empty_geometry_uses_bbox_warning_witness :
    ∃ tr, renderText noGlyphDoc "@@" 24 0 = .ok tr ∧
      tr.placed = [] ∧ tr.bbox = ⟨0, 0, 0, 0⟩ ∧ tr.finalPoints = [] ∧
      tr.warnEmptyBBox = true := by
  refine ⟨((renderText noGlyphDoc "@@" 24 0).toOption).getD
    ⟨[], ⟨0, 0, 0, 0⟩, [], false⟩, rfl, ?_⟩
  exact empty_geometry_uses_bbox_warning noGlyphDoc (parseMetrics none)
    (buildGlyphTable none []) "@@" 24 0 _ rfl (fun c _ => rfl) rfl

/-- Claim C6 (corrected), counterexample.  A glyph declaring
`horiz-adv-x="-100"` is stored with advance −100 and its effective
layout advance is −100 — strictly negative, contradicting
"never negative". -/
theorem negative_advance_cx :
    tableGet (buildGlyphTable none [⟨some 'a', some [(0, 0)], some (-100)⟩]) 'a'
      = some ⟨[(0, 0)], -100⟩ ∧
    effectiveAdv ⟨[(0, 0)], -100⟩ = -100 ∧ ((-100 : ℚ) < 0) := by decide

/-- Claim C6 (amended).  The effective advance follows the fallback chain
per-glyph attribute, then font-wide attribute, then the hardcoded 600,
and is positive, provided every supplied advance attribute is positive; a
negative supplied advance passes through unclamped. -/
theorem advance_fallback_chain_positive
    (u : Char) (d : List Pt) (gAdv fAdv : Option ℚ)
    (hg : ∀ v ∈ gAdv, 0 < v) (hf : ∀ v ∈ fAdv, 0 < v) :
    ∃ g, tableGet (buildGlyphTable fAdv [⟨some u, some d, gAdv⟩]) u = some g ∧
      effectiveAdv g = (gAdv.orElse fun _ => fAdv).getD 600 ∧
      0 < effectiveAdv g := by
  refine ⟨⟨d, ((gAdv.orElse fun _ => fAdv).getD 0)⟩, ?_, ?_⟩
  · simp [buildGlyphTable, tableGet]
  · cases gAdv with
    | some v =>
        have hv := hg v (by simp)
        constructor
        · simp [effectiveAdv, Option.orElse, ne_of_gt hv]
        · simpa [effectiveAdv, Option.orElse, ne_of_gt hv] using hv
    | none =>
        cases fAdv with
        | some w =>
            have hw := hf w (by simp)
            constructor
            · simp [effectiveAdv, Option.orElse, ne_of_gt hw]
            · simpa [effectiveAdv, Option.orElse, ne_of_gt hw] using hw
        | none => refine ⟨by simp [effectiveAdv, Option.orElse], by norm_num [effectiveAdv, Option.orElse]⟩

/-- Witness for the amended C6: a glyph with its own positive advance. -/
theorem advance_fallback_chain_positive_witness :
    ∃ g, tableGet (buildGlyphTable none [⟨some 'a', some [(0, 0)], some 512⟩]) 'a'
        = some g ∧
      effectiveAdv g = ((some (512 : ℚ)).orElse fun _ => none).getD 600 ∧
      0 < effectiveAdv g :=
  advance_fallback_chain_positive 'a' [(0, 0)] (some 512) none
    (by intro v hv; simp only [Option.mem_def, Option.some.injEq] at hv; subst hv; norm_num)
    (by intro v hv; simp at hv)

/-- Claim C7 (corrected), counterexample.  A rectangle of 357 × 119 in a
360 × 120 viewport covers more than 99% of each dimension, yet the
sanitizer keeps it: the code's threshold is absolute (within 0.1 units of
the viewport size), not a ~99% ratio. -/
theorem near_full_rect_kept_cx :
    sanitizeDrawing 360 120 [DrawElem.rectEl 0 0 357 119]
      = [DrawElem.rectEl 0 0 357 119] ∧
    (357 : ℚ) ≥ (99 / 100) * 360 ∧ (119 : ℚ) ≥ (99 / 100) * 120 ∧
    ¬(|(0 : ℚ)| > 360 * 2 ∨ |(0 : ℚ)| > 120 * 2) := by
  have hk : keepChild 360 120 (DrawElem.rectEl 0 0 357 119) = true := by
    simp only [keepChild]
    rw [if_neg (by norm_num), if_neg (by norm_num [abs_zero])]
  refine ⟨?_, by norm_num, by norm_num, by norm_num [abs_zero]⟩
  simp [sanitizeDrawing, List.filter_cons, hk]

/-- Claim C7 (amended).  The sanitizer drops a top-level rectangle iff
its width and height are each within 0.1 user units of the declared
viewport size, or its position lies more than twice the viewport
dimensions from the origin; in particular a rectangle sized exactly at
the viewport at the origin is removed, and (for any viewport larger than
0.2 units) a half-viewport rectangle at the origin is retained. -/
theorem sanitizer_rect_rule (vbW vbH x y w h : ℚ) :
    (sanitizeDrawing vbW vbH [DrawElem.rectEl x y w h] = [] ↔
      (w ≥ vbW - 1 / 10 ∧ h ≥ vbH - 1 / 10) ∨ |x| > vbW * 2 ∨ |y| > vbH * 2) ∧
    sanitizeDrawing vbW vbH [DrawElem.rectEl 0 0 vbW vbH] = [] ∧
    (1 / 5 < vbW → 1 / 5 < vbH → 0 ≤ vbW → 0 ≤ vbH →
      sanitizeDrawing vbW vbH [DrawElem.rectEl 0 0 (vbW / 2) (vbH / 2)]
        = [DrawElem.rectEl 0 0 (vbW / 2) (vbH / 2)]) := by
  refine ⟨?_, ?_, ?_⟩
  · rw [sanitizeDrawing_singleton]
    cases hkc : keepChild vbW vbH (DrawElem.rectEl x y w h) with
    | false =>
        rw [if_neg (by simp [hkc])]
        exact iff_of_true rfl ((keepChild_rect vbW vbH x y w h).mp hkc)
    | true =>
        rw [if_pos rfl]
        refine iff_of_false (by simp) fun hr => ?_
        rw [(keepChild_rect vbW vbH x y w h).mpr hr] at hkc
        cases hkc
  · have hkc : keepChild vbW vbH (DrawElem.rectEl 0 0 vbW vbH) = false :=
      (keepChild_rect vbW vbH 0 0 vbW vbH).mpr (Or.inl ⟨by linarith, by linarith⟩)
    rw [sanitizeDrawing_singleton, if_neg (by simp [hkc])]
  · intro hW hH hW0 hH0
    have hRHS : ¬((vbW / 2 ≥ vbW - 1 / 10 ∧ vbH / 2 ≥ vbH - 1 / 10) ∨
        |(0 : ℚ)| > vbW * 2 ∨ |(0 : ℚ)| > vbH * 2) := by
      rintro (⟨h1, _⟩ | hx | hy)
      · linarith
      · rw [abs_zero] at hx; linarith
      · rw [abs_zero] at hy; linarith
    have hkc : keepChild vbW vbH (DrawElem.rectEl 0 0 (vbW / 2) (vbH / 2)) = true := by
      cases hkc2 : keepChild vbW vbH (DrawElem.rectEl 0 0 (vbW / 2) (vbH / 2)) with
      | false => exact absurd ((keepChild_rect vbW vbH 0 0 (vbW / 2) (vbH / 2)).mp hkc2) hRHS
      | true => rfl
    rw [sanitizeDrawing_singleton, if_pos hkc]

/-- Witness for the amended C7 at the 360 × 120 viewport. -/
theorem sanitizer_rect_rule_witness :
    sanitizeDrawing 360 120 [DrawElem.rectEl 0 0 360 120] = [] ∧
    sanitizeDrawing 360 120 [DrawElem.rectEl 0 0 (360 / 2) (120 / 2)]
      = [DrawElem.rectEl 0 0 (360 / 2) (120 / 2)] :=
  ⟨(sanitizer_rect_rule 360 120 0 0 360 120).2.1,
   (sanitizer_rect_rule 360 120 0 0 1 1).2.2 (by norm_num) (by norm_num)
     (by norm_num) (by norm_num)⟩

/-- Claim C8 (corrected), counterexample.  The export normalizer is not
idempotent on every scene: a glyph-group path whose stroke-width is the
regex-matching but unparsable string "1.2.3" is rewritten to "NaNmm" by
the first pass and to "0.05mm" by the second, so running the normalizer
twice differs from running it once. -/
theorem normalizer_not_idempotent_cx :
    normalizeScene 360 120 (normalizeScene 360 120 [badGlyphElem])
      ≠ normalizeScene 360 120 [badGlyphElem] := by decide

/-- Claim C8 (amended).  The export normalizer is idempotent on every
scene in which no glyph-group path carries a stroke-width attribute that
matches the numeric regex without a unit yet parses to `NaN` (the
"1.2.3" corner exhibited by the counterexample): no default strokes are
inserted a second time and the stroke floor does not drift. -/
theorem normalizer_idempotent_wf (vbW vbH : ℚ) (s : List SElem)
    (h : ∀ e ∈ s, ¬(e.tag = STag.pathTag ∧ e.underGlyphs = true ∧
      e.strokeWidth = SWAttr.nanNum false)) :
    normalizeScene vbW vbH (normalizeScene vbW vbH s) = normalizeScene vbW vbH s := by
  suffices hgen : ∀ l : List SElem,
      (∀ e ∈ l, ¬(e.tag = STag.pathTag ∧ e.underGlyphs = true ∧
        e.strokeWidth = SWAttr.nanNum false)) →
      (l.filterMap (normalizeElem vbW vbH)).filterMap (normalizeElem vbW vbH)
        = l.filterMap (normalizeElem vbW vbH) by
    exact hgen s h
  intro l
  induction l with
  | nil => intro _; rfl
  | cons a t ih =>
      intro hl
      rw [List.filterMap_cons]
      cases hna : normalizeElem vbW vbH a with
      | none => exact ih fun e he => hl e (List.mem_cons_of_mem a he)
      | some b =>
          simp only [List.filterMap_cons,
            normalizeElem_fixpoint vbW vbH a b (hl a (List.mem_cons_self a t)) hna,
            ih fun e he => hl e (List.mem_cons_of_mem a he)]

/-- Witness for the amended C8 on a one-path scene with a well-formed
stroke-width. -/
theorem normalizer_idempotent_wf_witness :
    normalizeScene 360 120 (normalizeScene 360 120 [goodGlyphElem])
      = normalizeScene 360 120 [goodGlyphElem] :=
  normalizer_idempotent_wf 360 120 [goodGlyphElem] (by decide)

end EBApp
